import Mathlib

/-!
Verification of the OCR text-extraction core of the visitor-management
repository (file `client/src/lib/ocr.ts`).  The pipeline downstream of the
external OCR engine is a pure text transform; it is embedded here with
strings modelled as `List Char`, scores as exact rationals, and the specific
JavaScript regular expressions of the source modelled by a small
backtracking matcher over character-class atoms (greedy quantifiers with
backtracking, word-boundary and end-of-string assertions), which matches the
ECMAScript semantics for the patterns actually used by the source.
-/

namespace VMOcr

/-- ASCII uppercase letter, regex class `[A-Z]`. -/
def isUpperCh (c : Char) : Bool := decide (65 ≤ c.toNat ∧ c.toNat ≤ 90)

/-- ASCII lowercase letter, regex class `[a-z]`. -/
def isLowerCh (c : Char) : Bool := decide (97 ≤ c.toNat ∧ c.toNat ≤ 122)

/-- ASCII digit, regex class `\d` = `[0-9]`. -/
def isDigitCh (c : Char) : Bool := decide (48 ≤ c.toNat ∧ c.toNat ≤ 57)

/-- ASCII letter, regex class `[A-Za-z]`. -/
def isLetterCh (c : Char) : Bool := isUpperCh c || isLowerCh c

/-- ASCII alphanumeric, regex class `[A-Za-z0-9]`. -/
def isAlnumCh (c : Char) : Bool := isLetterCh c || isDigitCh c

/-- Regex class `[A-Z0-9]` (uppercase letters and digits only). -/
def isUpperDigitCh (c : Char) : Bool := isUpperCh c || isDigitCh c

/-- ECMAScript word character, regex class `\w` = `[A-Za-z0-9_]`. -/
def isWordCh (c : Char) : Bool := isAlnumCh c || decide (c.toNat = 95)

/-- ECMAScript whitespace, regex class `\s` (also the set trimmed by
`String.prototype.trim`): tab, line feed, vertical tab, form feed, carriage
return, space, NBSP, Ogham space, the U+2000–U+200A range, line/paragraph
separators, narrow NBSP, medium mathematical space, ideographic space, BOM. -/
def isJsSpace (c : Char) : Bool :=
  decide (c.toNat = 9 ∨ c.toNat = 10 ∨ c.toNat = 11 ∨ c.toNat = 12 ∨
    c.toNat = 13 ∨ c.toNat = 32 ∨ c.toNat = 160 ∨ c.toNat = 5760 ∨
    (8192 ≤ c.toNat ∧ c.toNat ≤ 8202) ∨ c.toNat = 8232 ∨ c.toNat = 8233 ∨
    c.toNat = 8239 ∨ c.toNat = 8287 ∨ c.toNat = 12288 ∨ c.toNat = 65279)

/-- ASCII-range model of `String.prototype.toUpperCase` applied per
character (all source inputs of interest are ASCII). -/
def upChar (c : Char) : Char :=
  if 97 ≤ c.toNat ∧ c.toNat ≤ 122 then Char.ofNat (c.toNat - 32) else c

/-- Model of `String.prototype.trim`. -/
def trimJs (s : List Char) : List Char :=
  ((s.dropWhile isJsSpace).reverse.dropWhile isJsSpace).reverse

/-- Split on the literal newline character, model of `text.split('\n')`. -/
def splitOnNl : List Char → List (List Char)
  | [] => [[]]
  | c :: rest =>
    match splitOnNl rest with
    | [] => if c = '\n' then [[], []] else [[c]]
    | g :: gs => if c = '\n' then [] :: g :: gs else (c :: g) :: gs

/-- Model of `Array.prototype.join(' ')`. -/
def joinSp : List (List Char) → List Char
  | [] => []
  | [l] => l
  | l :: ls => l ++ ' ' :: joinSp ls

/-- Helper for `collapseWsRuns`; the flag records whether the previous
character was whitespace. -/
def collapseWsAux : Bool → List Char → List Char
  | _, [] => []
  | prev, c :: rest =>
    if isJsSpace c then
      if prev then collapseWsAux true rest else ' ' :: collapseWsAux true rest
    else c :: collapseWsAux false rest

/-- Model of `replace(/\s+/g, ' ')`: every whitespace run becomes one space. -/
def collapseWsRuns (s : List Char) : List Char := collapseWsAux false s

/-- Helper for `collapseHyphens`; the flag records whether the previous
character was a hyphen. -/
def collapseHyAux : Bool → List Char → List Char
  | _, [] => []
  | prev, c :: rest =>
    if c = '-' then
      if prev then collapseHyAux true rest else c :: collapseHyAux true rest
    else c :: collapseHyAux false rest

/-- Model of the source's hyphen-collapsing replacement (a run of two or
more hyphens becomes a single hyphen): runs of length one are already
single hyphens, so collapsing every run is the same transformation. -/
def collapseHyphens (s : List Char) : List Char := collapseHyAux false s

/-- Model of `replace(/\s+/g, '')`. -/
def removeWs (s : List Char) : List Char := s.filter (fun c => !isJsSpace c)

/-- Model of `replace(/[^A-Z0-9]/g, '')`. -/
def keepUpperDigit (s : List Char) : List Char := s.filter isUpperDigitCh

/-- Whether the first list is a prefix of the second. -/
def startsL : List Char → List Char → Bool
  | [], _ => true
  | _ :: _, [] => false
  | a :: as, b :: bs => a = b && startsL as bs

/-- Substring containment, model of `String.prototype.includes`. -/
def hasSub (n : List Char) : List Char → Bool
  | [] => startsL n []
  | c :: t => startsL n (c :: t) || hasSub n t

/-- Model of `line.split(/\s+/).filter(w => w.length > 0)`: the maximal
whitespace-free runs of the line, in order. -/
def wordsOf : List Char → List (List Char)
  | [] => []
  | c :: rest =>
    if isJsSpace c then wordsOf rest
    else
      match rest with
      | [] => [[c]]
      | d :: _ =>
        if isJsSpace d then [c] :: wordsOf rest
        else
          match wordsOf rest with
          | [] => [[c]]
          | w :: ws => (c :: w) :: ws

/-- One piece of a regular expression: a character class with a repetition
range (`hi = none` means unbounded, as in `+`), a word-boundary assertion
`\b`, or the end-of-input assertion `$`. -/
inductive RAtom where
  | cls : (Char → Bool) → Nat → Option Nat → RAtom
  | wb : RAtom
  | eos : RAtom

/-- Whether the head of the list is a word character (`false` at the end of
the input, which behaves as a non-word position for `\b`). -/
def headIsWord : List Char → Bool
  | [] => false
  | c :: _ => isWordCh c

/-- Word-character status of the last element, or the default for `[]`. -/
def lastWordOf (dflt : Bool) (l : List Char) : Bool :=
  match l.getLast? with
  | some c => isWordCh c
  | none => dflt

/-- Backtracking matcher for a sequence of atoms against the front of `s`;
`w` says whether the character just before `s` is a word character.  Greedy
quantifiers are realised by trying the repetition counts in descending
order, which is exactly the ECMAScript backtracking order for the patterns
used in the source.  Returns the unconsumed remainder on success. -/
def matchSeq : List RAtom → Bool → List Char → Option (List Char)
  | [], _, s => some s
  | RAtom.wb :: g, w, s => if w = headIsWord s then none else matchSeq g w s
  | RAtom.eos :: g, w, s => if s.isEmpty then matchSeq g w s else none
  | RAtom.cls p lo hi :: g, w, s =>
    let bound := match hi with | some h => h | none => s.length
    ((List.range (bound + 1)).reverse).findSome? (fun k =>
      if lo ≤ k ∧ k ≤ s.length ∧ (s.take k).all p then
        matchSeq g (if k = 0 then w else lastWordOf w (s.take k)) (s.drop k)
      else none)

/-- Leftmost match of any of the alternative patterns (tried in order at
each position, positions scanned left to right).  Returns the matched text,
the word-character status of the character before the remainder, and the
remainder.  All patterns used below have positive minimum width, so a
successful match always consumes at least one character; a zero-width
match (impossible for them) is skipped. -/
def firstMatchFrom (pats : List (List RAtom)) (w : Bool) :
    List Char → Option (List Char × Bool × List Char)
  | [] => none
  | c :: cs =>
    match pats.findSome? (fun pat => matchSeq pat w (c :: cs)) with
    | some rest =>
      let consumed := (c :: cs).length - rest.length
      if consumed = 0 then firstMatchFrom pats (isWordCh c) cs
      else some ((c :: cs).take consumed,
        lastWordOf w ((c :: cs).take consumed), rest)
    | none => firstMatchFrom pats (isWordCh c) cs

/-- Fuelled iteration of `firstMatchFrom`, model of repeated non-overlapping
matching as done by `String.prototype.match` with the `g` flag. -/
def allMatchesAux (pats : List (List RAtom)) :
    Nat → Bool → List Char → List (List Char)
  | 0, _, _ => []
  | Nat.succ fuel, w, s =>
    match firstMatchFrom pats w s with
    | none => []
    | some (m, w2, rest) => m :: allMatchesAux pats fuel w2 rest

/-- All matches of `pats` in `s`.  Since every pattern below has positive
minimum width, each match consumes at least one character, so at most
`s.length` matches exist and the fuel `s.length + 1` never truncates. -/
def allMatches (pats : List (List RAtom)) (s : List Char) : List (List Char) :=
  allMatchesAux pats (s.length + 1) false s

/-- Regex class `[-\s]` used as the plate separator. -/
def isPlateSep (c : Char) : Bool := decide (c = '-') || isJsSpace c

/-- Plate template 1: `\b[A-Z]{2,3}[-\s]?[0-9]{2,4}\b`. -/
def plate1Pat : List RAtom :=
  [.wb, .cls isUpperCh 2 (some 3), .cls isPlateSep 0 (some 1),
   .cls isDigitCh 2 (some 4), .wb]

/-- Plate template 2: `\b[0-9]{2,3}[-\s]?[A-Z]{2,3}\b`. -/
def plate2Pat : List RAtom :=
  [.wb, .cls isDigitCh 2 (some 3), .cls isPlateSep 0 (some 1),
   .cls isUpperCh 2 (some 3), .wb]

/-- Plate template 3: `\b[A-Z]{1,2}[0-9]{2,4}[A-Z]?\b`. -/
def plate3Pat : List RAtom :=
  [.wb, .cls isUpperCh 1 (some 2), .cls isDigitCh 2 (some 4),
   .cls isUpperCh 0 (some 1), .wb]

/-- Plate template 4: `\b[0-9]{1,3}[A-Z]{2,4}\b`. -/
def plate4Pat : List RAtom :=
  [.wb, .cls isDigitCh 1 (some 3), .cls isUpperCh 2 (some 4), .wb]

/-- Plate template 5: `\b[A-Z0-9]{4,8}\b`. -/
def plate5Pat : List RAtom :=
  [.wb, .cls isUpperDigitCh 4 (some 8), .wb]

/-- The five plate templates, in the priority order of the source. -/
def platePats : List (List RAtom) :=
  [plate1Pat, plate2Pat, plate3Pat, plate4Pat, plate5Pat]

/-- The fallback name regex `\b[A-Z][a-z]+\s+[A-Z][a-z]+(?:\s+[A-Z][a-z]+)?\b`
with the optional group present.  The optional group is modelled by ordered
alternation (`nameLongPat` before `nameShortPat`), which is equivalent to
the ECMAScript semantics here: the classes `[A-Z]`, `[a-z]`, `\s` of
adjacent quantifiers are pairwise disjoint, so each quantifier must consume
its full maximal run for the following atom or the closing `\b` to succeed;
hence at any position at most one repetition-count assignment can succeed
per alternative, and trying the group-present alternative first is exactly
the greedy preference of `(?:...)?`. -/
def nameLongPat : List RAtom :=
  [.wb, .cls isUpperCh 1 (some 1), .cls isLowerCh 1 none,
   .cls isJsSpace 1 none, .cls isUpperCh 1 (some 1), .cls isLowerCh 1 none,
   .cls isJsSpace 1 none, .cls isUpperCh 1 (some 1), .cls isLowerCh 1 none,
   .wb]

/-- The fallback name regex with the optional third word absent. -/
def nameShortPat : List RAtom :=
  [.wb, .cls isUpperCh 1 (some 1), .cls isLowerCh 1 none,
   .cls isJsSpace 1 none, .cls isUpperCh 1 (some 1), .cls isLowerCh 1 none,
   .wb]

/-- The two alternatives of the fallback name regex, greedy order. -/
def namePats : List (List RAtom) := [nameLongPat, nameShortPat]

/-- The fallback ID regex `\b[A-Z0-9]{8,15}\b`. -/
def idRunPat : List RAtom := [.wb, .cls isUpperDigitCh 8 (some 15), .wb]

/-- Anchored test `^...$` of an atom sequence ending in `eos`. -/
def matchAnchored (g : List RAtom) (s : List Char) : Bool :=
  (matchSeq g false s).isSome

/-- Date filter regex `^\d{1,2}\/\d{1,2}\/\d{4}$`. -/
def datePat : List RAtom :=
  [.cls isDigitCh 1 (some 2), .cls (fun c => decide (c = '/')) 1 (some 1),
   .cls isDigitCh 1 (some 2), .cls (fun c => decide (c = '/')) 1 (some 1),
   .cls isDigitCh 4 (some 4), .eos]

/-- Whether a line matches the bare date pattern of the noise filter. -/
def isDateLine (s : List Char) : Bool := matchAnchored datePat s

/-- Kernel-computable addition on `ℚ` (the library's `+` on `Rat` is
deliberately irreducible; this version is the same function, see
`qadd_eq`). -/
def qadd (a b : ℚ) : ℚ := mkRat (a.num * b.den + b.num * a.den) (a.den * b.den)

/-- Kernel-computable multiplication on `ℚ`, see `qmul_eq`. -/
def qmul (a b : ℚ) : ℚ := mkRat (a.num * b.num) (a.den * b.den)

/-- Kernel-computable minimum on `ℚ` (`Math.min`), see `qmin_eq`. -/
def qmin (a b : ℚ) : ℚ := if a.blt b then a else b

/-- `calculateNameScore` of the source: how likely a line is a person's
name (exact rational arithmetic in place of IEEE doubles). -/
def calculateNameScore (line : List Char) : ℚ :=
  if !(line.any isLetterCh) then 0 else
  let alphaSpaceFrac : ℚ :=
    mkRat (line.countP (fun c => isLetterCh c || isJsSpace c)) line.length
  let s1 := qmul alphaSpaceFrac (mkRat 4 10)
  let words := wordsOf line
  let s2 := qadd s1
    (if 2 ≤ words.length ∧ words.length ≤ 4 then mkRat 3 10 else 0)
  let capCount := words.countP (fun w =>
    match w with | [] => false | c :: _ => isUpperCh c)
  let s3 := qadd s2 (qmul (mkRat capCount words.length) (mkRat 2 10))
  let s4 := qadd s3
    (if 5 ≤ line.length ∧ line.length ≤ 40 then mkRat 1 10 else 0)
  qmin s4 1

/-- `calculateIdScore` of the source: how likely a line is an ID number. -/
def calculateIdScore (line : List Char) : ℚ :=
  let hasNumbers := line.any isDigitCh
  let hasLetters := line.any isLetterCh
  if !hasNumbers && !hasLetters then 0 else
  let s1 : ℚ := qadd (if hasNumbers then mkRat 4 10 else 0)
    (if hasLetters && hasNumbers then mkRat 2 10 else 0)
  let cleanLine := line.filter isAlnumCh
  let s2 := qadd s1 (qmul (mkRat cleanLine.length line.length) (mkRat 3 10))
  let s3 := qadd s2
    (if 6 ≤ cleanLine.length ∧ cleanLine.length ≤ 15 then mkRat 1 10 else 0)
  qmin s3 1

/-- Anchored structural pattern `^[A-Z]{2,3}[0-9]{2,4}$`. -/
def llddPat : List RAtom :=
  [.cls isUpperCh 2 (some 3), .cls isDigitCh 2 (some 4), .eos]

/-- Anchored structural pattern `^[0-9]{2,3}[A-Z]{2,3}$`. -/
def ddllPat : List RAtom :=
  [.cls isDigitCh 2 (some 3), .cls isUpperCh 2 (some 3), .eos]

/-- Anchored structural pattern `^[A-Z][0-9]{3,4}$`. -/
def ldddPat : List RAtom :=
  [.cls isUpperCh 1 (some 1), .cls isDigitCh 3 (some 4), .eos]

/-- `calculatePlateScore` of the source: likelihood of a license plate. -/
def calculatePlateScore (text : List Char) : ℚ :=
  let cleanText := text.filter isUpperDigitCh
  let hasNumbers := cleanText.any isDigitCh
  let hasLetters := cleanText.any isUpperCh
  if !hasNumbers && !hasLetters then 0 else
  let s1 : ℚ := qadd (if hasNumbers && hasLetters then mkRat 5 10 else 0)
    (if hasNumbers && !hasLetters && decide (3 ≤ cleanText.length)
      then mkRat 3 10 else 0)
  let s2 := qadd s1
    (if 4 ≤ cleanText.length ∧ cleanText.length ≤ 8 then mkRat 3 10
     else if 3 ≤ cleanText.length ∧ cleanText.length ≤ 10 then mkRat 1 10
     else 0)
  let s3 := qadd (qadd (qadd s2
    (if matchAnchored llddPat cleanText then mkRat 2 10 else 0))
    (if matchAnchored ddllPat cleanText then mkRat 2 10 else 0))
    (if matchAnchored ldddPat cleanText then mkRat 15 100 else 0)
  qmin s3 1

/-- Result record of `extractIDCardText` (`ExtractedIDData` in the source;
all four fields are declared optional there). -/
structure ExtractedIDData where
  name : Option (List Char)
  idNumber : Option (List Char)
  address : Option (List Char)
  city : Option (List Char)
deriving DecidableEq, Repr

/-- Result record of `extractLicensePlate`. -/
structure ExtractedPlateData where
  plateNumber : Option (List Char)
deriving DecidableEq, Repr

/-- Characters kept by the ID-card per-line cleaner
`replace(/[^\w\s.-]/g, '')`. -/
def keepIdChar (c : Char) : Bool :=
  isWordCh c || isJsSpace c || decide (c = '.') || decide (c = '-')

/-- `line.trim().replace(/[^\w\s.-]/g, '')` of the source. -/
def cleanIdLineOf (line : List Char) : List Char :=
  (trimJs line).filter keepIdChar

/-- `text.split('\n').map(l => l.trim()).filter(l => l.length > 0)`. -/
def linesOf (text : List Char) : List (List Char) :=
  ((splitOnNl text).map trimJs).filter (fun l => !l.isEmpty)

/-- The keyword list of the ID-card noise filter. -/
def idNoiseKeys : List (List Char) :=
  ["IDENTITY".toList, "CARD".toList, "GOVERNMENT".toList, "REPUBLIC".toList,
   "ISSUED".toList, "EXPIRES".toList, "DOB".toList, "DATE".toList,
   "SEX".toList, "MALE".toList, "FEMALE".toList, "ADDRESS".toList,
   "SIGNATURE".toList, "VALID".toList]

/-- The skip conditions of the ID-card noise filter, applied to the cleaned
line (keyword tests and the date test run on its uppercased form). -/
def isNoiseLine (cleanLine : List Char) : Bool :=
  let upperLine := cleanLine.map upChar
  decide (cleanLine.length < 3) || decide (50 < cleanLine.length) ||
    idNoiseKeys.any (fun k => hasSub k upperLine) ||
    isDateLine upperLine ||
    cleanLine.all (fun c => !isAlnumCh c)

/-- The "meaningful lines" of `extractIDCardText`: each trimmed non-empty
line is cleaned and pushed unless a skip condition fires. -/
def meaningfulLinesOf (text : List Char) : List (List Char) :=
  (linesOf text).filterMap (fun line =>
    let cl := cleanIdLineOf line
    if isNoiseLine cl then none else some cl)

/-- One step of the best-candidate selection loops of the source: skip the
excluded lines, otherwise take the line when its score strictly exceeds
both the current best and the threshold. -/
def pickStep (score : List Char → ℚ) (thr : ℚ) (skip : List Char → Bool)
    (b : List Char × ℚ) (l : List Char) : List Char × ℚ :=
  if skip l then b
  else if score l > b.2 ∧ score l > thr then (l, score l) else b

/-- The best-candidate selection loop, starting from `('', 0)`. -/
def pick (score : List Char → ℚ) (thr : ℚ) (skip : List Char → Bool)
    (ls : List (List Char)) : List Char × ℚ :=
  ls.foldl (pickStep score thr skip) ([], 0)

/-- The name loop skips nothing. -/
def noSkip : List Char → Bool := fun _ => false

/-- The name-candidate loop of `extractIDCardText` (threshold 0.7). -/
def bestNameOf (text : List Char) : List Char × ℚ :=
  pick calculateNameScore (mkRat 7 10) noSkip (meaningfulLinesOf text)

/-- The ID-candidate loop of `extractIDCardText` (threshold 0.6): any line
equal to the chosen name candidate is skipped. -/
def bestIdOf (text : List Char) : List Char × ℚ :=
  pick calculateIdScore (mkRat 6 10) (fun l => decide (l = (bestNameOf text).1))
    (meaningfulLinesOf text)

/-- The name as set by the scoring path (whitespace collapsed and trimmed),
or `none` when no candidate cleared the threshold. -/
def nameFromScoring (text : List Char) : Option (List Char) :=
  if (bestNameOf text).1 ≠ [] then
    some (trimJs (collapseWsRuns (bestNameOf text).1))
  else none

/-- The ID number as set by the scoring path: whitespace removed, then
everything outside `[A-Z0-9]` removed. -/
def idFromScoring (text : List Char) : Option (List Char) :=
  if (bestIdOf text).1 ≠ [] then
    some (keepUpperDigit (removeWs (bestIdOf text).1))
  else none

/-- `meaningfulLines.join(' ')`, the input of the fallback matchers. -/
def allTextOf (text : List Char) : List Char := joinSp (meaningfulLinesOf text)

/-- JavaScript truthiness of an optional string: `undefined` and the empty
string are falsy. -/
def strTruthy : Option (List Char) → Bool
  | none => false
  | some s => !s.isEmpty

/-- The final name field: the scoring result if truthy, otherwise the first
match of the fallback name regex over the joined meaningful lines. -/
def finalNameOf (text : List Char) : Option (List Char) :=
  if strTruthy (nameFromScoring text) then nameFromScoring text
  else
    match (allMatches namePats (allTextOf text)).head? with
    | some m => some m
    | none => nameFromScoring text

/-- The final ID-number field: the scoring result if truthy, otherwise the
first match of the fallback ID regex over the joined meaningful lines. -/
def finalIdOf (text : List Char) : Option (List Char) :=
  if strTruthy (idFromScoring text) then idFromScoring text
  else
    match (allMatches [idRunPat] (allTextOf text)).head? with
    | some m => some m
    | none => idFromScoring text

/-- `extractIDCardText` of the source, from the recognized text onward (the
external OCR engine is outside this core).  `address` and `city` are never
assigned anywhere in the function body. -/
def extractIDCardText (text : List Char) : ExtractedIDData :=
  { name := finalNameOf text, idNumber := finalIdOf text,
    address := none, city := none }

/-- Characters kept by the plate per-line cleaner
`replace(/[^A-Z0-9-\s]/g, '')`. -/
def keepPlateChar (c : Char) : Bool :=
  isUpperCh c || isDigitCh c || decide (c = '-') || isJsSpace c

/-- `line.replace(/[^A-Z0-9-\s]/g, '').toUpperCase().trim()`. -/
def cleanPlateLineOf (line : List Char) : List Char :=
  trimJs ((line.filter keepPlateChar).map upChar)

/-- Innermost step of the plate candidate loop: keep a match when its score
strictly exceeds the current best. -/
def plateMatchStep (b : List Char × ℚ) (m : List Char) : List Char × ℚ :=
  if calculatePlateScore m > b.2 then (m, calculatePlateScore m) else b

/-- Per-template step: fold over all matches of one template in the line. -/
def platePatStep (cl : List Char) (b : List Char × ℚ) (pat : List RAtom) :
    List Char × ℚ :=
  (allMatches [pat] cl).foldl plateMatchStep b

/-- Per-line step of the plate candidate loop: clean the line, skip it when
shorter than 3 characters, otherwise try every template in order. -/
def plateLineStep (b : List Char × ℚ) (line : List Char) : List Char × ℚ :=
  let cl := cleanPlateLineOf line
  if cl.length < 3 then b else platePats.foldl (platePatStep cl) b

/-- The candidate loop of `extractLicensePlate`: for every line (of cleaned
length at least 3), every template, every match, keep the strictly best
score; ties keep the first found. -/
def bestPlateOf (text : List Char) : List Char × ℚ :=
  (linesOf text).foldl plateLineStep ([], 0)

/-- `lines.join(' ').replace(/[^A-Z0-9]/g, '').toUpperCase()`, the whole-text
fallback candidate. -/
def plateFallbackTextOf (text : List Char) : List Char :=
  ((joinSp (linesOf text)).filter isUpperDigitCh).map upChar

/-- The winning plate candidate: the loop result, or the whole-text fallback
when the loop found nothing and the fallback passes its length and score
gates; `[]` means no candidate. -/
def winningPlateOf (text : List Char) : List Char :=
  if (bestPlateOf text).1 ≠ [] then (bestPlateOf text).1
  else
    let allText := plateFallbackTextOf text
    if 4 ≤ allText.length ∧ allText.length ≤ 10 ∧
        calculatePlateScore allText > mkRat 5 10 then allText
    else []

/-- `extractLicensePlate` of the source, from the recognized text onward:
the winning candidate is formatted by removing whitespace and collapsing
repeated hyphens. -/
def extractLicensePlate (text : List Char) : ExtractedPlateData :=
  if winningPlateOf text ≠ [] then
    { plateNumber := some (collapseHyphens (removeWs (winningPlateOf text))) }
  else { plateNumber := none }

/-- The character set named by the specification for meaningful lines:
ASCII letters, digits, spaces, hyphens, and periods.  This definition
follows the specification's words, for comparison with the source's
`keepIdChar`. -/
def specAllowedIDChar (c : Char) : Bool :=
  isLetterCh c || isDigitCh c || decide (c = ' ') || decide (c = '-') ||
    decide (c = '.')

/-- Helper for `maxAlnumRun`. -/
def maxAlnumRunAux : List Char → Nat → Nat → Nat
  | [], cur, best => max cur best
  | c :: rest, cur, best =>
    if isAlnumCh c then maxAlnumRunAux rest (cur + 1) best
    else maxAlnumRunAux rest 0 (max cur best)

/-- Length of the longest run of consecutive alphanumeric characters, used
to state the specification's "no alphanumeric run of length ≥ 3" premise. -/
def maxAlnumRun (s : List Char) : Nat := maxAlnumRunAux s 0 0

lemma qadd_eq (a b : ℚ) : qadd a b = a + b := (Rat.add_def' a b).symm

lemma qmul_eq (a b : ℚ) : qmul a b = a * b := by
  unfold qmul
  rw [Rat.mul_def, Rat.normalize_eq_mkRat]

lemma qmin_eq (a b : ℚ) : qmin a b = min a b := by
  unfold qmin
  split
  · next h =>
    have hlt : a < b := h
    exact (min_eq_left hlt.le).symm
  · next h =>
    have hnlt : ¬ a < b := fun hlt => h hlt
    exact (min_eq_right (le_of_not_lt hnlt)).symm

lemma mkRat_eq_div (a : ℤ) (b : ℕ) : mkRat a b = (a : ℚ) / (b : ℚ) := by
  rw [Rat.mkRat_eq_divInt, Rat.divInt_eq_div]
  push_cast
  rfl

lemma mkRat_nat_nonneg (m n : ℕ) : (0 : ℚ) ≤ mkRat (m : ℤ) n := by
  rw [mkRat_eq_div]
  positivity

lemma mkRat_nat_le_one {m n : ℕ} (h : m ≤ n) : mkRat (m : ℤ) n ≤ 1 := by
  rw [mkRat_eq_div]
  rcases Nat.eq_zero_or_pos n with hn | hn
  · subst hn
    interval_cases m
    simp
  · rw [div_le_one (by exact_mod_cast hn)]
    push_cast
    exact_mod_cast h

lemma ite_nonneg_q (c : Prop) [Decidable c] {x y : ℚ} (hx : 0 ≤ x)
    (hy : 0 ≤ y) : 0 ≤ if c then x else y := by
  split
  · exact hx
  · exact hy

lemma mkRat_int_nonneg {a : ℤ} (ha : 0 ≤ a) (b : ℕ) : (0 : ℚ) ≤ mkRat a b := by
  rw [mkRat_eq_div]
  have h : (0:ℚ) ≤ (a : ℚ) := by exact_mod_cast ha
  positivity

lemma qadd_nonneg {a b : ℚ} (ha : 0 ≤ a) (hb : 0 ≤ b) : 0 ≤ qadd a b := by
  rw [qadd_eq]
  exact add_nonneg ha hb

lemma qmul_nonneg {a b : ℚ} (ha : 0 ≤ a) (hb : 0 ≤ b) : 0 ≤ qmul a b := by
  rw [qmul_eq]
  exact mul_nonneg ha hb

lemma qmin_one_bounds {s : ℚ} (hs : 0 ≤ s) :
    0 ≤ qmin s 1 ∧ qmin s 1 ≤ 1 := by
  rw [qmin_eq]
  exact ⟨le_min hs (by norm_num), min_le_right _ _⟩

lemma pick_foldl_spec (score : List Char → ℚ) (thr : ℚ)
    (skip : List Char → Bool) (ls : List (List Char)) :
    ∀ b : List Char × ℚ,
      (ls.foldl (pickStep score thr skip) b = b ∨
        (skip (ls.foldl (pickStep score thr skip) b).1 = false ∧
          (ls.foldl (pickStep score thr skip) b).1 ∈ ls ∧
          (ls.foldl (pickStep score thr skip) b).2 =
            score (ls.foldl (pickStep score thr skip) b).1 ∧
          thr < (ls.foldl (pickStep score thr skip) b).2 ∧
          b.2 < (ls.foldl (pickStep score thr skip) b).2)) ∧
      (∀ l ∈ ls, skip l = false → thr < score l →
        score l ≤ (ls.foldl (pickStep score thr skip) b).2) ∧
      b.2 ≤ (ls.foldl (pickStep score thr skip) b).2 := by
  induction ls with
  | nil => intro b; simp
  | cons l ls ih =>
    intro b
    rw [List.foldl_cons]
    by_cases hsk : skip l = true
    · have hstep : pickStep score thr skip b l = b := by simp [pickStep, hsk]
      rw [hstep]
      obtain ⟨h1, h2, h3⟩ := ih b
      refine ⟨?_, ?_, h3⟩
      · rcases h1 with h1 | h1
        · exact Or.inl h1
        · exact Or.inr ⟨h1.1, List.mem_cons_of_mem _ h1.2.1, h1.2.2⟩
      · intro m hm hskm hthr
        rcases List.mem_cons.mp hm with rfl | hm
        · simp [hskm] at hsk
        · exact h2 m hm hskm hthr
    · have hsk' : skip l = false := by simpa using hsk
      by_cases hc : score l > b.2 ∧ score l > thr
      · have hstep : pickStep score thr skip b l = (l, score l) := by
          simp [pickStep, hsk', hc]
        rw [hstep]
        obtain ⟨h1, h2, h3⟩ := ih (l, score l)
        refine ⟨?_, ?_, ?_⟩
        · rcases h1 with h1 | h1
          · rw [h1]
            exact Or.inr ⟨hsk', List.mem_cons_self _ _, rfl, hc.2, hc.1⟩
          · exact Or.inr ⟨h1.1, List.mem_cons_of_mem _ h1.2.1, h1.2.2.1,
              h1.2.2.2.1, lt_trans hc.1 h1.2.2.2.2⟩
        · intro m hm hskm hthr
          rcases List.mem_cons.mp hm with rfl | hm
          · exact h3
          · exact h2 m hm hskm hthr
        · exact le_trans (le_of_lt hc.1) h3
      · have hstep : pickStep score thr skip b l = b := by
          simp only [pickStep]
          rw [if_neg (by simp [hsk']), if_neg hc]
        rw [hstep]
        obtain ⟨h1, h2, h3⟩ := ih b
        refine ⟨?_, ?_, h3⟩
        · rcases h1 with h1 | h1
          · exact Or.inl h1
          · exact Or.inr ⟨h1.1, List.mem_cons_of_mem _ h1.2.1, h1.2.2⟩
        · intro m hm hskm hthr
          rcases List.mem_cons.mp hm with rfl | hm
          · have hle : score m ≤ b.2 := by
              by_contra hgt
              exact hc ⟨lt_of_not_le hgt, hthr⟩
            exact le_trans hle h3
          · exact h2 m hm hskm hthr

lemma pick_foldl_first (score : List Char → ℚ) (thr : ℚ)
    (skip : List Char → Bool) (ls : List (List Char)) :
    ∀ b : List Char × ℚ,
      ls.foldl (pickStep score thr skip) b ≠ b →
      ∃ pre suf,
        ls = pre ++ (ls.foldl (pickStep score thr skip) b).1 :: suf ∧
        ∀ l ∈ pre, skip l = false → thr < score l →
          score l < (ls.foldl (pickStep score thr skip) b).2 := by
  induction ls with
  | nil => intro b h; simp at h
  | cons l ls ih =>
    intro b hne
    rw [List.foldl_cons] at hne ⊢
    by_cases hstep : pickStep score thr skip b l = b
    · rw [hstep] at hne ⊢
      obtain ⟨pre, suf, hsplit, hpre⟩ := ih b hne
      refine ⟨l :: pre, suf, congrArg (List.cons l) hsplit, ?_⟩
      intro m hm hskm hthr
      rcases List.mem_cons.mp hm with heq | hm
      · subst heq
        have hmle : score m ≤ b.2 := by
          by_contra hgt
          have hstep2 : pickStep score thr skip b m = (m, score m) := by
            simp only [pickStep]
            rw [if_neg (by simp [hskm]), if_pos ⟨lt_of_not_le hgt, hthr⟩]
          rw [hstep2] at hstep
          have heq2 : score m = b.2 := congrArg Prod.snd hstep
          exact hgt (le_of_eq heq2)
        have hblt : b.2 < (ls.foldl (pickStep score thr skip) b).2 := by
          rcases (pick_foldl_spec score thr skip ls b).1 with h | h
          · exact absurd h hne
          · exact h.2.2.2.2
        exact lt_of_le_of_lt hmle hblt
      · exact hpre m hm hskm hthr
    · have hsk' : skip l = false := by
        by_contra h
        have h' : skip l = true := by simpa using h
        exact hstep (by simp [pickStep, h'])
      have hc : score l > b.2 ∧ score l > thr := by
        by_contra h
        refine hstep ?_
        simp only [pickStep]
        rw [if_neg (by simp [hsk']), if_neg h]
      have hstep' : pickStep score thr skip b l = (l, score l) := by
        simp [pickStep, hsk', hc]
      rw [hstep']
      by_cases hr : ls.foldl (pickStep score thr skip) (l, score l) = (l, score l)
      · rw [hr]
        exact ⟨[], ls, rfl, by simp⟩
      · obtain ⟨pre, suf, hsplit, hpre⟩ := ih (l, score l) hr
        refine ⟨l :: pre, suf, congrArg (List.cons l) hsplit, ?_⟩
        intro m hm hskm hthr
        rcases List.mem_cons.mp hm with heq | hm
        · subst heq
          rcases (pick_foldl_spec score thr skip ls (m, score m)).1 with h | h
          · exact absurd h hr
          · exact h.2.2.2.2
        · exact hpre m hm hskm hthr

lemma findSome_mem {α β : Type} (f : α → Option β) (l : List α) (b : β)
    (h : l.findSome? f = some b) : ∃ a ∈ l, f a = some b := by
  induction l with
  | nil => simp [List.findSome?] at h
  | cons a l ih =>
    cases hfa : f a with
    | some v =>
      have hv : some v = some b := by
        rw [List.findSome?_cons, hfa] at h
        exact h
      exact ⟨a, List.mem_cons_self _ _, by rw [hfa, Option.some.inj hv]⟩
    | none =>
      rw [List.findSome?_cons, hfa] at h
      obtain ⟨x, hx, hfx⟩ := ih h
      exact ⟨x, List.mem_cons_of_mem _ hx, hfx⟩

lemma matchSeq_suffix (g : List RAtom) :
    ∀ (w : Bool) (s r : List Char),
      matchSeq g w s = some r → ∃ t, s = t ++ r := by
  induction g with
  | nil =>
    intro w s r h
    simp only [matchSeq, Option.some.injEq] at h
    exact ⟨[], by simp [h]⟩
  | cons a g ih =>
    cases a with
    | wb =>
      intro w s r h
      simp only [matchSeq] at h
      split at h
      · exact absurd h (by simp)
      · exact ih w s r h
    | eos =>
      intro w s r h
      simp only [matchSeq] at h
      split at h
      · exact ih w s r h
      · exact absurd h (by simp)
    | cls p lo hi =>
      intro w s r h
      simp only [matchSeq] at h
      obtain ⟨k, hkmem, hfk⟩ := findSome_mem _ _ _ h
      split at hfk
      · obtain ⟨t', ht'⟩ := ih _ _ _ hfk
        refine ⟨s.take k ++ t', ?_⟩
        conv_lhs => rw [← List.take_append_drop k s]
        rw [ht', List.append_assoc]
      · exact absurd hfk (by simp)

lemma matchSeq_mand (g : List RAtom) (p : Char → Bool) :
    ∀ (w : Bool) (s r : List Char), matchSeq g w s = some r →
      (∃ lo hi, RAtom.cls p lo hi ∈ g ∧ 1 ≤ lo) →
      ∃ t, s = t ++ r ∧ ∃ c ∈ t, p c = true := by
  induction g with
  | nil =>
    intro w s r h hmand
    obtain ⟨lo, hi, hmem, _⟩ := hmand
    simp at hmem
  | cons a g ih =>
    intro w s r h hmand
    obtain ⟨lo, hi, hmem, hlo⟩ := hmand
    rcases List.mem_cons.mp hmem with heq | hmem'
    · subst heq
      simp only [matchSeq] at h
      obtain ⟨k, hkmem, hfk⟩ := findSome_mem _ _ _ h
      split at hfk
      · next hcond =>
        obtain ⟨hlok, hklen, hall⟩ := hcond
        obtain ⟨t', ht'⟩ := matchSeq_suffix g _ _ _ hfk
        refine ⟨s.take k ++ t', ?_, ?_⟩
        · conv_lhs => rw [← List.take_append_drop k s]
          rw [ht', List.append_assoc]
        · have hne : s.take k ≠ [] := by
            intro hnil
            have hlen := congrArg List.length hnil
            simp only [List.length_take, List.length_nil] at hlen
            omega
          obtain ⟨c, hc⟩ := List.exists_mem_of_ne_nil _ hne
          exact ⟨c, List.mem_append_left _ hc, List.all_eq_true.mp hall c hc⟩
      · exact absurd hfk (by simp)
    · cases a with
      | wb =>
        simp only [matchSeq] at h
        split at h
        · exact absurd h (by simp)
        · exact ih _ _ _ h ⟨lo, hi, hmem', hlo⟩
      | eos =>
        simp only [matchSeq] at h
        split at h
        · exact ih _ _ _ h ⟨lo, hi, hmem', hlo⟩
        · exact absurd h (by simp)
      | cls p2 lo2 hi2 =>
        simp only [matchSeq] at h
        obtain ⟨k, hkmem, hfk⟩ := findSome_mem _ _ _ h
        split at hfk
        · obtain ⟨t', ht', c, hct, hpc⟩ := ih _ _ _ hfk ⟨lo, hi, hmem', hlo⟩
          refine ⟨s.take k ++ t', ?_, c, List.mem_append_right _ hct, hpc⟩
          conv_lhs => rw [← List.take_append_drop k s]
          rw [ht', List.append_assoc]
        · exact absurd hfk (by simp)

lemma firstMatch_mand (pats : List (List RAtom)) (p : Char → Bool)
    (hp : ∀ pat ∈ pats, ∃ lo hi, RAtom.cls p lo hi ∈ pat ∧ 1 ≤ lo) :
    ∀ (s : List Char) (w : Bool) (m : List Char) (w2 : Bool) (r : List Char),
      firstMatchFrom pats w s = some (m, w2, r) → ∃ c ∈ m, p c = true := by
  intro s
  induction s with
  | nil =>
    intro w m w2 r h
    simp [firstMatchFrom] at h
  | cons ch cs ih =>
    intro w m w2 r h
    simp only [firstMatchFrom] at h
    cases hfs : pats.findSome? (fun pat => matchSeq pat w (ch :: cs)) with
    | none =>
      rw [hfs] at h
      exact ih _ _ _ _ h
    | some rest =>
      simp only [hfs] at h
      split at h
      · exact ih _ _ _ _ h
      · simp only [Option.some.injEq, Prod.mk.injEq] at h
        obtain ⟨hm, _, _⟩ := h
        obtain ⟨pat, hpat, hms⟩ := findSome_mem _ _ _ hfs
        obtain ⟨t, ht, c, hct, hpc⟩ :=
          matchSeq_mand pat p _ _ _ hms (hp pat hpat)
        have hlen : t.length = (ch :: cs).length - rest.length := by
          have := congrArg List.length ht
          simp only [List.length_append] at this
          omega
        have hmt : m = t := by
          rw [← hm, ht]
          exact List.take_left' (by simp only [List.length_append]; omega)
        exact ⟨c, hmt ▸ hct, hpc⟩

lemma firstMatch_none (pats : List (List RAtom)) :
    ∀ (s : List Char) (w : Bool),
      (∀ pat ∈ pats, ∃ p lo hi, RAtom.cls p lo hi ∈ pat ∧ 1 ≤ lo ∧
        ∀ c ∈ s, p c = false) →
      firstMatchFrom pats w s = none := by
  intro s
  induction s with
  | nil => intro w _; simp [firstMatchFrom]
  | cons ch cs ih =>
    intro w hp
    have hfs : pats.findSome? (fun pat => matchSeq pat w (ch :: cs)) = none := by
      cases hfs : pats.findSome? (fun pat => matchSeq pat w (ch :: cs)) with
      | none => rfl
      | some rest =>
        exfalso
        obtain ⟨pat, hpat, hms⟩ := findSome_mem _ _ _ hfs
        obtain ⟨p, lo, hi, hmem, hlo, hfalse⟩ := hp pat hpat
        obtain ⟨t, ht, c, hct, hpc⟩ :=
          matchSeq_mand pat p _ _ _ hms ⟨lo, hi, hmem, hlo⟩
        have hcs : c ∈ ch :: cs := by
          rw [ht]
          exact List.mem_append_left _ hct
        rw [hfalse c hcs] at hpc
        exact absurd hpc (by simp)
    simp only [firstMatchFrom, hfs]
    exact ih _ (fun pat hpat => by
      obtain ⟨p, lo, hi, hmem, hlo, hfalse⟩ := hp pat hpat
      exact ⟨p, lo, hi, hmem, hlo,
        fun c hc => hfalse c (List.mem_cons_of_mem _ hc)⟩)

lemma allMatchesAux_mand (pats : List (List RAtom)) (p : Char → Bool)
    (hp : ∀ pat ∈ pats, ∃ lo hi, RAtom.cls p lo hi ∈ pat ∧ 1 ≤ lo) :
    ∀ (fuel : Nat) (w : Bool) (s m : List Char),
      m ∈ allMatchesAux pats fuel w s → ∃ c ∈ m, p c = true := by
  intro fuel
  induction fuel with
  | zero =>
    intro w s m hm
    simp [allMatchesAux] at hm
  | succ fuel ih =>
    intro w s m hm
    simp only [allMatchesAux] at hm
    cases hfm : firstMatchFrom pats w s with
    | none =>
      rw [hfm] at hm
      simp at hm
    | some res =>
      obtain ⟨m1, w2, rest⟩ := res
      rw [hfm] at hm
      rcases List.mem_cons.mp hm with heq | hm'
      · subst heq
        exact firstMatch_mand pats p hp s w _ _ _ hfm
      · exact ih w2 rest m hm'

lemma allMatches_mand (pats : List (List RAtom)) (p : Char → Bool)
    (hp : ∀ pat ∈ pats, ∃ lo hi, RAtom.cls p lo hi ∈ pat ∧ 1 ≤ lo)
    (s m : List Char) (hm : m ∈ allMatches pats s) : ∃ c ∈ m, p c = true := by
  unfold allMatches at hm
  exact allMatchesAux_mand pats p hp _ _ _ _ hm

lemma allMatches_nil (pats : List (List RAtom)) (s : List Char)
    (hp : ∀ pat ∈ pats, ∃ p lo hi, RAtom.cls p lo hi ∈ pat ∧ 1 ≤ lo ∧
      ∀ c ∈ s, p c = false) :
    allMatches pats s = [] := by
  unfold allMatches
  have h1 : firstMatchFrom pats false s = none := firstMatch_none pats s false hp
  simp [allMatchesAux, h1]

/-- C2: for every input string, each of the three scorers returns a value
in the closed interval `[0, 1]`, including for the empty string and for
strings with no letters or digits. -/
theorem C2_theorem (line : List Char) :
    (0 ≤ calculateNameScore line ∧ calculateNameScore line ≤ 1) ∧
    (0 ≤ calculateIdScore line ∧ calculateIdScore line ≤ 1) ∧
    (0 ≤ calculatePlateScore line ∧ calculatePlateScore line ≤ 1) := by
  refine ⟨?_, ?_, ?_⟩
  · unfold calculateNameScore
    dsimp only
    split
    · norm_num
    · refine qmin_one_bounds ?_
      refine qadd_nonneg (qadd_nonneg (qadd_nonneg
        (qmul_nonneg (mkRat_int_nonneg (by positivity) _)
          (mkRat_int_nonneg (by norm_num) _))
        (ite_nonneg_q _ (mkRat_int_nonneg (by norm_num) _) le_rfl))
        (qmul_nonneg (mkRat_int_nonneg (by positivity) _)
          (mkRat_int_nonneg (by norm_num) _)))
        (ite_nonneg_q _ (mkRat_int_nonneg (by norm_num) _) le_rfl)
  · unfold calculateIdScore
    dsimp only
    split
    · norm_num
    · refine qmin_one_bounds ?_
      refine qadd_nonneg (qadd_nonneg (qadd_nonneg
        (ite_nonneg_q _ (mkRat_int_nonneg (by norm_num) _) le_rfl)
        (ite_nonneg_q _ (mkRat_int_nonneg (by norm_num) _) le_rfl))
        (qmul_nonneg (mkRat_int_nonneg (by positivity) _)
          (mkRat_int_nonneg (by norm_num) _)))
        (ite_nonneg_q _ (mkRat_int_nonneg (by norm_num) _) le_rfl)
  · unfold calculatePlateScore
    dsimp only
    split
    · norm_num
    · refine qmin_one_bounds ?_
      apply qadd_nonneg
      · apply qadd_nonneg
        · apply qadd_nonneg
          · apply qadd_nonneg
            · apply qadd_nonneg
              · exact ite_nonneg_q _ (mkRat_int_nonneg (by norm_num) _) le_rfl
              · exact ite_nonneg_q _ (mkRat_int_nonneg (by norm_num) _) le_rfl
            · refine ite_nonneg_q _ (mkRat_int_nonneg (by norm_num) _) ?_
              exact ite_nonneg_q _ (mkRat_int_nonneg (by norm_num) _) le_rfl
          · exact ite_nonneg_q _ (mkRat_int_nonneg (by norm_num) _) le_rfl
        · exact ite_nonneg_q _ (mkRat_int_nonneg (by norm_num) _) le_rfl
      · exact ite_nonneg_q _ (mkRat_int_nonneg (by norm_num) _) le_rfl

lemma mem_dropWhile_sub (p : Char → Bool) (l : List Char) (c : Char)
    (h : c ∈ l.dropWhile p) : c ∈ l := by
  induction l with
  | nil => simp [List.dropWhile] at h
  | cons a l ih =>
    rw [List.dropWhile_cons] at h
    split at h
    · exact List.mem_cons_of_mem _ (ih h)
    · exact h

lemma mem_trimJs_sub (l : List Char) (c : Char) (h : c ∈ trimJs l) : c ∈ l := by
  unfold trimJs at h
  rw [List.mem_reverse] at h
  have h2 := mem_dropWhile_sub _ _ _ h
  rw [List.mem_reverse] at h2
  exact mem_dropWhile_sub _ _ _ h2

lemma mem_splitOnNl_sub (t : List Char) :
    ∀ l ∈ splitOnNl t, ∀ c ∈ l, c ∈ t := by
  induction t with
  | nil =>
    intro l hl c hc
    simp only [splitOnNl, List.mem_singleton] at hl
    subst hl
    simp at hc
  | cons a t ih =>
    intro l hl c hc
    cases hsp : splitOnNl t with
    | nil =>
      simp only [splitOnNl, hsp] at hl
      split at hl
      · rcases List.mem_cons.mp hl with heq | hl'
        · subst heq; simp at hc
        · simp only [List.mem_singleton] at hl'
          subst hl'; simp at hc
      · simp only [List.mem_singleton] at hl
        subst hl
        rcases List.mem_singleton.mp hc with heq
        subst heq
        exact List.mem_cons_self _ _
    | cons g gs =>
      simp only [splitOnNl, hsp] at hl
      split at hl
      · rcases List.mem_cons.mp hl with heq | hl'
        · subst heq; simp at hc
        · have hlm : l ∈ splitOnNl t := by rw [hsp]; exact hl'
          exact List.mem_cons_of_mem _ (ih l hlm c hc)
      · rcases List.mem_cons.mp hl with heq | hl'
        · subst heq
          rcases List.mem_cons.mp hc with heq2 | hc'
          · subst heq2; exact List.mem_cons_self _ _
          · have hg : g ∈ splitOnNl t := by
              rw [hsp]; exact List.mem_cons_self _ _
            exact List.mem_cons_of_mem _ (ih g hg c hc')
        · have hlm : l ∈ splitOnNl t := by
            rw [hsp]; exact List.mem_cons_of_mem _ hl'
          exact List.mem_cons_of_mem _ (ih l hlm c hc)

lemma mem_linesOf_sub (text : List Char) (l : List Char)
    (hl : l ∈ linesOf text) (c : Char) (hc : c ∈ l) : c ∈ text := by
  unfold linesOf at hl
  rw [List.mem_filter] at hl
  obtain ⟨hlm, _⟩ := hl
  rw [List.mem_map] at hlm
  obtain ⟨l0, hl0, rfl⟩ := hlm
  exact mem_splitOnNl_sub text l0 hl0 c (mem_trimJs_sub _ _ hc)

lemma mem_joinSp (ls : List (List Char)) (c : Char) (hc : c ∈ joinSp ls) :
    (∃ l ∈ ls, c ∈ l) ∨ c = ' ' := by
  induction ls with
  | nil => simp [joinSp] at hc
  | cons l ls ih =>
    cases ls with
    | nil =>
      simp only [joinSp] at hc
      exact Or.inl ⟨l, List.mem_cons_self _ _, hc⟩
    | cons l2 ls2 =>
      simp only [joinSp] at hc
      rw [List.mem_append] at hc
      rcases hc with hc | hc
      · exact Or.inl ⟨l, List.mem_cons_self _ _, hc⟩
      · rcases List.mem_cons.mp hc with heq | hc'
        · exact Or.inr heq
        · rcases ih hc' with ⟨l3, hl3, hc3⟩ | heq
          · exact Or.inl ⟨l3, List.mem_cons_of_mem _ hl3, hc3⟩
          · exact Or.inr heq

lemma digit_not_space {c : Char} (h : isDigitCh c = true) :
    isJsSpace c = false := by
  simp only [isDigitCh, decide_eq_true_eq] at h
  simp only [isJsSpace, decide_eq_false_iff_not]
  omega

lemma digit_upperDigit {c : Char} (h : isDigitCh c = true) :
    isUpperDigitCh c = true := by
  simp [isUpperDigitCh, h]

lemma not_alnum_parts {c : Char} (h : isAlnumCh c = false) :
    isUpperCh c = false ∧ isLowerCh c = false ∧ isDigitCh c = false := by
  simp only [isAlnumCh, isLetterCh, Bool.or_eq_false_iff] at h
  exact ⟨h.1.1, h.1.2, h.2⟩

lemma not_alnum_upChar {c : Char} (h : isAlnumCh c = false) : upChar c = c := by
  unfold upChar
  rw [if_neg]
  intro hc
  have hlow : isLowerCh c = true := by
    simp only [isLowerCh, decide_eq_true_eq]
    exact hc
  rw [(not_alnum_parts h).2.1] at hlow
  exact absurd hlow (by simp)

lemma foldl_id {α β : Type} (f : β → α → β) (ls : List α)
    (hid : ∀ b a, a ∈ ls → f b a = b) : ∀ b, ls.foldl f b = b := by
  induction ls with
  | nil => intro b; rfl
  | cons a ls ih =>
    intro b
    rw [List.foldl_cons, hid b a (List.mem_cons_self _ _)]
    exact ih (fun b2 a2 ha2 => hid b2 a2 (List.mem_cons_of_mem _ ha2)) b

lemma idScore_le_of_no_digit (l : List Char) (h : l.any isDigitCh = false) :
    calculateIdScore l ≤ mkRat 4 10 := by
  unfold calculateIdScore
  dsimp only
  rw [h]
  have h410 : (mkRat 4 10 : ℚ) = 4/10 := by rw [mkRat_eq_div]; norm_num
  split
  · rw [h410]; norm_num
  · rw [qmin_eq]
    refine le_trans (min_le_left _ _) ?_
    rw [qadd_eq, qadd_eq, qadd_eq, qmul_eq]
    simp only [Bool.and_false, Bool.false_eq_true, if_false]
    have hfrac : mkRat (((l.filter isAlnumCh).length : ℕ) : ℤ) l.length ≤ 1 :=
      mkRat_nat_le_one (List.length_filter_le _ _)
    have h310 : (mkRat 3 10 : ℚ) = 3/10 := by rw [mkRat_eq_div]; norm_num
    have h110 : (mkRat 1 10 : ℚ) = 1/10 := by rw [mkRat_eq_div]; norm_num
    have hm : mkRat (((l.filter isAlnumCh).length : ℕ) : ℤ) l.length *
        mkRat 3 10 ≤ 3/10 := by
      rw [h310]
      calc mkRat (((l.filter isAlnumCh).length : ℕ) : ℤ) l.length * (3/10 : ℚ)
          ≤ 1 * (3/10 : ℚ) :=
            mul_le_mul_of_nonneg_right hfrac (by norm_num)
        _ = 3/10 := one_mul _
    have hite : (if 6 ≤ (l.filter isAlnumCh).length ∧
        (l.filter isAlnumCh).length ≤ 15 then mkRat 1 10 else 0) ≤
        (1/10 : ℚ) := by
      split
      · rw [h110]
      · norm_num
    rw [h410]
    linarith

lemma idScore_digit {l : List Char}
    (h : mkRat 6 10 < calculateIdScore l) : ∃ c ∈ l, isDigitCh c = true := by
  by_contra hn
  have hany : l.any isDigitCh = false := by
    rw [Bool.eq_false_iff]
    intro hcon
    obtain ⟨c, hc, hd⟩ := List.any_eq_true.mp hcon
    exact hn ⟨c, hc, hd⟩
  have hle := idScore_le_of_no_digit l hany
  have hlt : (mkRat 4 10 : ℚ) < mkRat 6 10 := by
    rw [mkRat_eq_div, mkRat_eq_div]; norm_num
  linarith

/-- C5: empty recognized text yields the empty result record for both
`extractIDCardText` and `extractLicensePlate`.  Both pipeline models are
total Lean functions, so neither can raise to its caller; in the source the
same guarantee is provided by the try/catch boundary, which converts any
internal failure into `\x7b\x7d`. -/
theorem C5_theorem :
    extractIDCardText ("".toList) =
      { name := none, idNumber := none, address := none, city := none } ∧
    extractLicensePlate ("".toList) = { plateNumber := none } := by
  decide

/-- C9 (implicit): for every input, the `ExtractedIDData` record returned
by `extractIDCardText` never has its `address` or `city` field populated —
the function body assigns only `name` and `idNumber`. -/
theorem C9_theorem (text : List Char) :
    (extractIDCardText text).address = none ∧
    (extractIDCardText text).city = none :=
  ⟨rfl, rfl⟩

/-- C1 (amended): in the scoring path, the line chosen as the ID-number
candidate is never the line chosen as the name candidate (the loop skips
every line equal to the name candidate).  The original claim's further
assertion — that `idNumber` stays unset when the name line is the only
strong candidate unless a second independent candidate exists — fails,
because the fallback matcher runs over the concatenation of all meaningful
lines including the chosen name line, and can bind `idNumber` to a
substring of that very line (see `C1_cex`). -/
theorem C1_theorem (text : List Char) (h : (bestIdOf text).1 ≠ []) :
    (bestIdOf text).1 ≠ (bestNameOf text).1 := by
  have hfold : bestIdOf text = (meaningfulLinesOf text).foldl
      (pickStep calculateIdScore (mkRat 6 10)
        (fun l => decide (l = (bestNameOf text).1))) ([], 0) := rfl
  have hspec := (pick_foldl_spec calculateIdScore (mkRat 6 10)
    (fun l => decide (l = (bestNameOf text).1))
    (meaningfulLinesOf text) ([], 0)).1
  rw [← hfold] at hspec
  rcases hspec with heq | hprops
  · exact absurd (congrArg Prod.fst heq) h
  · exact decide_eq_false_iff_not.mp hprops.1

/-- Witness for C1 at a concrete input with both candidates present. -/
theorem C1_witness :
    (bestIdOf ("John Smith\nXY12345678".toList)).1 ≠
      (bestNameOf ("John Smith\nXY12345678".toList)).1 :=
  C1_theorem _ (by decide)

/-- Counterexample for C1 as stated: for the single meaningful line
`"JOHNATHAN Smith"`, the name binds to that line and the fallback matcher
then binds `idNumber` to `"JOHNATHAN"`, a substring of the same source
line, even though no second line exists. -/
theorem C1_cex :
    meaningfulLinesOf ("JOHNATHAN Smith".toList) =
      ["JOHNATHAN Smith".toList] ∧
    extractIDCardText ("JOHNATHAN Smith".toList) =
      { name := some ("JOHNATHAN Smith".toList),
        idNumber := some ("JOHNATHAN".toList),
        address := none, city := none } := by
  decide

/-- C3 (amended): every character of every meaningful line is a word
character (ASCII letter, digit, or underscore), a whitespace character, a
period, or a hyphen — exactly the set kept by the per-line cleaner.  The
original claim's character set (letters, digits, spaces, hyphens, periods
only) fails because `\w` keeps underscores and `\s` keeps tabs and other
whitespace (see `C3_cex`). -/
theorem C3_theorem (text l : List Char) (c : Char)
    (hl : l ∈ meaningfulLinesOf text) (hc : c ∈ l) :
    isWordCh c = true ∨ isJsSpace c = true ∨ c = '.' ∨ c = '-' := by
  unfold meaningfulLinesOf at hl
  rw [List.mem_filterMap] at hl
  obtain ⟨line, hline, hsome⟩ := hl
  dsimp only at hsome
  split at hsome
  · exact absurd hsome (by simp)
  · have hleq : l = cleanIdLineOf line := (Option.some.inj hsome).symm
    rw [hleq] at hc
    unfold cleanIdLineOf at hc
    rw [List.mem_filter] at hc
    have hk := hc.2
    simp only [keepIdChar, Bool.or_eq_true, decide_eq_true_eq] at hk
    tauto

/-- Witness for C3 at a concrete meaningful line. -/
theorem C3_witness :
    isWordCh 'a' = true ∨ isJsSpace 'a' = true ∨ 'a' = '.' ∨ 'a' = '-' :=
  C3_theorem ("abc".toList) ("abc".toList) 'a' (by decide) (by decide)

/-- Counterexample for C3 as stated: the line `"AB_CD\tEF"` survives the
noise filter unchanged, yet contains an underscore and a tab, neither of
which is an ASCII letter, digit, space, hyphen, or period. -/
theorem C3_cex :
    meaningfulLinesOf ("AB_CD\tEF".toList) = ["AB_CD\tEF".toList] ∧
    '_' ∈ "AB_CD\tEF".toList ∧ specAllowedIDChar '_' = false ∧
    '\t' ∈ "AB_CD\tEF".toList ∧ specAllowedIDChar '\t' = false := by
  decide

/-- C4 (amended): whenever `extractIDCardText` populates `idNumber` from
the scoring path, the reported value is the highest-scoring eligible
meaningful line with score strictly above 0.6, with whitespace removed and
then every character other than an uppercase ASCII letter or digit removed
— so lowercase letters of the chosen line are dropped, not retained (the
original claim's parenthetical fails, see `C4_cex`). -/
theorem C4_theorem (text : List Char) (h : (bestIdOf text).1 ≠ []) :
    (extractIDCardText text).idNumber =
      some (keepUpperDigit (removeWs (bestIdOf text).1)) ∧
    mkRat 6 10 < calculateIdScore (bestIdOf text).1 ∧
    (bestIdOf text).1 ∈ meaningfulLinesOf text ∧
    ∀ l ∈ meaningfulLinesOf text, l ≠ (bestNameOf text).1 →
      mkRat 6 10 < calculateIdScore l →
      calculateIdScore l ≤ calculateIdScore (bestIdOf text).1 := by
  have hfold : bestIdOf text = (meaningfulLinesOf text).foldl
      (pickStep calculateIdScore (mkRat 6 10)
        (fun l => decide (l = (bestNameOf text).1))) ([], 0) := rfl
  have hspec := pick_foldl_spec calculateIdScore (mkRat 6 10)
    (fun l => decide (l = (bestNameOf text).1))
    (meaningfulLinesOf text) ([], 0)
  rw [← hfold] at hspec
  obtain ⟨h1, h2, _⟩ := hspec
  rcases h1 with heq | hprops
  · exact absurd (congrArg Prod.fst heq) h
  · obtain ⟨hskip, hmem, hscore, hthr, _⟩ := hprops
    have hscthr : mkRat 6 10 < calculateIdScore (bestIdOf text).1 := by
      rw [← hscore]; exact hthr
    refine ⟨?_, hscthr, hmem, ?_⟩
    · obtain ⟨d, hd, hdig⟩ := idScore_digit hscthr
      have hmem2 : d ∈ keepUpperDigit (removeWs (bestIdOf text).1) := by
        unfold keepUpperDigit removeWs
        rw [List.mem_filter]
        refine ⟨?_, digit_upperDigit hdig⟩
        rw [List.mem_filter]
        refine ⟨hd, ?_⟩
        rw [digit_not_space hdig]
        rfl
      have hne : keepUpperDigit (removeWs (bestIdOf text).1) ≠ [] :=
        List.ne_nil_of_mem hmem2
      have hifs : idFromScoring text =
          some (keepUpperDigit (removeWs (bestIdOf text).1)) := by
        unfold idFromScoring
        rw [if_pos h]
      have htr : strTruthy (idFromScoring text) = true := by
        rw [hifs]
        simp [strTruthy, List.isEmpty_iff, hne]
      show finalIdOf text = _
      unfold finalIdOf
      rw [if_pos htr, hifs]
    · intro l hml hlne hlthr
      have hle := h2 l hml (decide_eq_false_iff_not.mpr hlne) hlthr
      rw [hscore] at hle
      exact hle

/-- Witness for C4 at a concrete input whose ID candidate comes from the
scoring path. -/
theorem C4_witness :
    (extractIDCardText ("John Smith\nXY12345678".toList)).idNumber =
      some (keepUpperDigit (removeWs
        (bestIdOf ("John Smith\nXY12345678".toList)).1)) ∧
    mkRat 6 10 < calculateIdScore
      (bestIdOf ("John Smith\nXY12345678".toList)).1 ∧
    (bestIdOf ("John Smith\nXY12345678".toList)).1 ∈
      meaningfulLinesOf ("John Smith\nXY12345678".toList) ∧
    ∀ l ∈ meaningfulLinesOf ("John Smith\nXY12345678".toList),
      l ≠ (bestNameOf ("John Smith\nXY12345678".toList)).1 →
      mkRat 6 10 < calculateIdScore l →
      calculateIdScore l ≤ calculateIdScore
        (bestIdOf ("John Smith\nXY12345678".toList)).1 :=
  C4_theorem _ (by decide)

/-- Counterexample for C4 as stated: the line `"ab12345678"` wins the ID
scoring, but the reported value is `"12345678"` — its lowercase letters
are removed, not retained, so the reported value differs from the line
with merely all non-alphanumeric characters removed. -/
theorem C4_cex :
    (bestIdOf ("ab12345678".toList)).1 = "ab12345678".toList ∧
    (extractIDCardText ("ab12345678".toList)).idNumber =
      some ("12345678".toList) ∧
    (extractIDCardText ("ab12345678".toList)).idNumber ≠
      some (("ab12345678".toList).filter isAlnumCh) := by
  decide

/-- C7: the single line `"ABC 1234"` yields plate number `"ABC1234"`, and
in general, whenever a winning candidate exists, the returned plate number
is that candidate with whitespace removed and repeated hyphens collapsed. -/
theorem C7_theorem :
    extractLicensePlate ("ABC 1234".toList) =
      { plateNumber := some ("ABC1234".toList) } ∧
    ∀ text : List Char, winningPlateOf text ≠ [] →
      extractLicensePlate text =
        { plateNumber :=
            some (collapseHyphens (removeWs (winningPlateOf text))) } := by
  constructor
  · decide
  · intro text h
    unfold extractLicensePlate
    rw [if_pos h]

/-- Witness for C7's general normalization statement at `"ABC 1234"`. -/
theorem C7_witness :
    extractLicensePlate ("ABC 1234".toList) =
      { plateNumber := some (collapseHyphens (removeWs
          (winningPlateOf ("ABC 1234".toList)))) } :=
  C7_theorem.2 _ (by decide)

/-- C10 (implicit): whenever the name field is populated while the scoring
loop found no candidate (so the value comes from the fallback pattern
matcher), the reported name contains at least one lowercase letter — both
alternatives of the fallback regex contain a mandatory `[a-z]+` piece. -/
theorem C10_theorem (text m : List Char)
    (h0 : (bestNameOf text).1 = [])
    (hm : (extractIDCardText text).name = some m) :
    ∃ c ∈ m, isLowerCh c = true := by
  have hp : ∀ pat ∈ namePats,
      ∃ lo hi, RAtom.cls isLowerCh lo hi ∈ pat ∧ 1 ≤ lo := by
    intro pat hpat
    rcases List.mem_cons.mp hpat with heq | hpat'
    · subst heq
      exact ⟨1, none, List.mem_cons_of_mem _ (List.mem_cons_of_mem _
        (List.mem_cons_self _ _)), le_refl 1⟩
    · rcases List.mem_cons.mp hpat' with heq | hpat''
      · subst heq
        exact ⟨1, none, List.mem_cons_of_mem _ (List.mem_cons_of_mem _
          (List.mem_cons_self _ _)), le_refl 1⟩
      · simp at hpat''
  have hnfs : nameFromScoring text = none := by
    unfold nameFromScoring
    rw [if_neg]
    simp [h0]
  have hname : (extractIDCardText text).name = finalNameOf text := rfl
  rw [hname] at hm
  unfold finalNameOf at hm
  rw [hnfs] at hm
  rw [if_neg (by simp [strTruthy])] at hm
  cases hh : (allMatches namePats (allTextOf text)).head? with
  | none =>
    rw [hh] at hm
    simp at hm
  | some m2 =>
    rw [hh] at hm
    simp only [Option.some.injEq] at hm
    subst hm
    have hmem : m2 ∈ allMatches namePats (allTextOf text) :=
      List.mem_of_mem_head? (Option.mem_def.mpr hh)
    exact allMatches_mand namePats isLowerCh hp _ _ hmem

/-- Witness for C10: on `"1234567890 Ab Cd"` the scoring loop finds no
name, the fallback reports `"Ab Cd"`, and it contains lowercase letters. -/
theorem C10_witness :
    ∃ c ∈ ("Ab Cd".toList), isLowerCh c = true :=
  C10_theorem ("1234567890 Ab Cd".toList) ("Ab Cd".toList)
    (by decide) (by decide)

lemma cleanPlate_chars (text : List Char)
    (hAl : ∀ c ∈ text, isAlnumCh c = false) (line : List Char)
    (hline : line ∈ linesOf text) :
    ∀ c2 ∈ cleanPlateLineOf line, isUpperCh c2 = false ∧ isDigitCh c2 = false := by
  intro c2 hc2
  unfold cleanPlateLineOf at hc2
  have hc2' := mem_trimJs_sub _ _ hc2
  rw [List.mem_map] at hc2'
  obtain ⟨c0, hc0, rfl⟩ := hc2'
  rw [List.mem_filter] at hc0
  have hct : c0 ∈ text := mem_linesOf_sub text line hline c0 hc0.1
  have hna := hAl c0 hct
  rw [not_alnum_upChar hna]
  exact ⟨(not_alnum_parts hna).1, (not_alnum_parts hna).2.2⟩

lemma plate_allMatches_nil (text : List Char)
    (hAl : ∀ c ∈ text, isAlnumCh c = false) (line : List Char)
    (hline : line ∈ linesOf text) :
    ∀ pat ∈ platePats, allMatches [pat] (cleanPlateLineOf line) = [] := by
  intro pat hpat
  have hch := cleanPlate_chars text hAl line hline
  have hud : ∀ c2 ∈ cleanPlateLineOf line, isUpperDigitCh c2 = false := by
    intro c2 hc2
    have := hch c2 hc2
    simp [isUpperDigitCh, this.1, this.2]
  rcases List.mem_cons.mp hpat with heq | hpat'
  · subst heq
    exact allMatches_nil _ _ (fun pat2 hpat2 => by
      rw [List.mem_singleton.mp hpat2]
      exact ⟨isUpperCh, 2, some 3,
        List.mem_cons_of_mem _ (List.mem_cons_self _ _), by norm_num,
        fun c hc => (hch c hc).1⟩)
  rcases List.mem_cons.mp hpat' with heq | hpat''
  · subst heq
    exact allMatches_nil _ _ (fun pat2 hpat2 => by
      rw [List.mem_singleton.mp hpat2]
      exact ⟨isDigitCh, 2, some 3,
        List.mem_cons_of_mem _ (List.mem_cons_self _ _), by norm_num,
        fun c hc => (hch c hc).2⟩)
  rcases List.mem_cons.mp hpat'' with heq | hpat3
  · subst heq
    exact allMatches_nil _ _ (fun pat2 hpat2 => by
      rw [List.mem_singleton.mp hpat2]
      exact ⟨isUpperCh, 1, some 2,
        List.mem_cons_of_mem _ (List.mem_cons_self _ _), by norm_num,
        fun c hc => (hch c hc).1⟩)
  rcases List.mem_cons.mp hpat3 with heq | hpat4
  · subst heq
    exact allMatches_nil _ _ (fun pat2 hpat2 => by
      rw [List.mem_singleton.mp hpat2]
      exact ⟨isDigitCh, 1, some 3,
        List.mem_cons_of_mem _ (List.mem_cons_self _ _), by norm_num,
        fun c hc => (hch c hc).2⟩)
  rcases List.mem_cons.mp hpat4 with heq | hpat5
  · subst heq
    exact allMatches_nil _ _ (fun pat2 hpat2 => by
      rw [List.mem_singleton.mp hpat2]
      exact ⟨isUpperDigitCh, 4, some 8,
        List.mem_cons_of_mem _ (List.mem_cons_self _ _), by norm_num,
        fun c hc => hud c hc⟩)
  simp at hpat5

/-- C6 (amended): for every input text containing no alphanumeric character
at all, `extractLicensePlate` returns the empty result.  The original
claim's weaker premise — no alphanumeric run of length at least 3 — fails:
the separator forms of the templates accept two runs of length 2 (for
example `"AB-12"`), and the whole-text fallback concatenates even isolated
single characters (see `C6_cex`). -/
theorem C6_theorem (text : List Char)
    (h : ∀ c ∈ text, isAlnumCh c = false) :
    extractLicensePlate text = { plateNumber := none } := by
  have hfold : bestPlateOf text = ([], 0) := by
    unfold bestPlateOf
    refine foldl_id _ _ ?_ _
    intro b line hline
    unfold plateLineStep
    dsimp only
    split
    · rfl
    · refine foldl_id _ _ ?_ _
      intro b2 pat hpat
      unfold platePatStep
      rw [plate_allMatches_nil text h line hline pat hpat]
      rfl
  have hfb : plateFallbackTextOf text = [] := by
    unfold plateFallbackTextOf
    have hfilter : (joinSp (linesOf text)).filter isUpperDigitCh = [] := by
      rw [List.eq_nil_iff_forall_not_mem]
      intro c hc
      rw [List.mem_filter] at hc
      obtain ⟨hcj, hcu⟩ := hc
      rcases mem_joinSp _ _ hcj with ⟨l, hl, hcl⟩ | heq
      · have hna := h c (mem_linesOf_sub text l hl c hcl)
        rw [show isUpperDigitCh c = false by
          simp [isUpperDigitCh, (not_alnum_parts hna).1,
            (not_alnum_parts hna).2.2]] at hcu
        exact absurd hcu (by simp)
      · subst heq
        exact absurd hcu (by decide)
    rw [hfilter]
    rfl
  have hwin : winningPlateOf text = [] := by
    unfold winningPlateOf
    rw [hfold]
    rw [if_neg (by simp)]
    dsimp only
    rw [hfb]
    rw [if_neg (by simp)]
  unfold extractLicensePlate
  rw [hwin]
  rw [if_neg (by simp)]

/-- Witness for C6 at a concrete all-symbol input. -/
theorem C6_witness :
    extractLicensePlate ("-- !!".toList) = { plateNumber := none } :=
  C6_theorem _ (by decide)

/-- Counterexample for C6 as stated: `"A 1 B 2"` has no alphanumeric run
longer than 1, yet the whole-text fallback returns plate `"A1B2"`. -/
theorem C6_cex :
    maxAlnumRun ("A 1 B 2".toList) = 1 ∧
    extractLicensePlate ("A 1 B 2".toList) =
      { plateNumber := some ("A1B2".toList) } := by
  decide

/-- C8 (amended): line order IS used to break scoring ties.  The selection
loops keep the first line whose score strictly exceeds the running best, so
the selected candidate is the earliest line attaining the (above-threshold)
maximum: every earlier eligible line scores strictly below it, every line
scores at most it.  Consequently swapping two equal-best lines changes
which line is selected (see `C8_cex`), contrary to the original claim. -/
theorem C8_theorem (text : List Char) :
    ((bestNameOf text).1 ≠ [] →
      ∃ pre suf,
        meaningfulLinesOf text = pre ++ (bestNameOf text).1 :: suf ∧
        (∀ l ∈ pre, mkRat 7 10 < calculateNameScore l →
          calculateNameScore l < (bestNameOf text).2) ∧
        (∀ l ∈ meaningfulLinesOf text, mkRat 7 10 < calculateNameScore l →
          calculateNameScore l ≤ (bestNameOf text).2) ∧
        (bestNameOf text).2 = calculateNameScore (bestNameOf text).1) ∧
    ((bestIdOf text).1 ≠ [] →
      ∃ pre suf,
        meaningfulLinesOf text = pre ++ (bestIdOf text).1 :: suf ∧
        (∀ l ∈ pre, l ≠ (bestNameOf text).1 →
          mkRat 6 10 < calculateIdScore l →
          calculateIdScore l < (bestIdOf text).2) ∧
        (∀ l ∈ meaningfulLinesOf text, l ≠ (bestNameOf text).1 →
          mkRat 6 10 < calculateIdScore l →
          calculateIdScore l ≤ (bestIdOf text).2) ∧
        (bestIdOf text).2 = calculateIdScore (bestIdOf text).1) := by
  constructor
  · intro h
    have hfold : bestNameOf text = (meaningfulLinesOf text).foldl
        (pickStep calculateNameScore (mkRat 7 10) noSkip) ([], 0) := rfl
    have hne : (meaningfulLinesOf text).foldl
        (pickStep calculateNameScore (mkRat 7 10) noSkip) ([], 0) ≠
        ([], 0) := by
      intro heq
      rw [← hfold] at heq
      exact h (congrArg Prod.fst heq)
    obtain ⟨pre, suf, hsplit, hpre⟩ :=
      pick_foldl_first calculateNameScore (mkRat 7 10) noSkip
        (meaningfulLinesOf text) ([], 0) hne
    have hspec := pick_foldl_spec calculateNameScore (mkRat 7 10) noSkip
      (meaningfulLinesOf text) ([], 0)
    rw [← hfold] at hsplit hpre hspec
    obtain ⟨h1, h2, _⟩ := hspec
    have hscore : (bestNameOf text).2 =
        calculateNameScore (bestNameOf text).1 := by
      rcases h1 with heq | hp
      · exact absurd (congrArg Prod.fst heq) h
      · exact hp.2.2.1
    refine ⟨pre, suf, hsplit, ?_, ?_, hscore⟩
    · intro l hl ht
      exact hpre l hl rfl ht
    · intro l hl ht
      exact h2 l hl rfl ht
  · intro h
    have hfold : bestIdOf text = (meaningfulLinesOf text).foldl
        (pickStep calculateIdScore (mkRat 6 10)
          (fun l => decide (l = (bestNameOf text).1))) ([], 0) := rfl
    have hne : (meaningfulLinesOf text).foldl
        (pickStep calculateIdScore (mkRat 6 10)
          (fun l => decide (l = (bestNameOf text).1))) ([], 0) ≠
        ([], 0) := by
      intro heq
      rw [← hfold] at heq
      exact h (congrArg Prod.fst heq)
    obtain ⟨pre, suf, hsplit, hpre⟩ :=
      pick_foldl_first calculateIdScore (mkRat 6 10)
        (fun l => decide (l = (bestNameOf text).1))
        (meaningfulLinesOf text) ([], 0) hne
    have hspec := pick_foldl_spec calculateIdScore (mkRat 6 10)
      (fun l => decide (l = (bestNameOf text).1))
      (meaningfulLinesOf text) ([], 0)
    rw [← hfold] at hsplit hpre hspec
    obtain ⟨h1, h2, _⟩ := hspec
    have hscore : (bestIdOf text).2 =
        calculateIdScore (bestIdOf text).1 := by
      rcases h1 with heq | hp
      · exact absurd (congrArg Prod.fst heq) h
      · exact hp.2.2.1
    refine ⟨pre, suf, hsplit, ?_, ?_, hscore⟩
    · intro l hl hlne ht
      exact hpre l hl (decide_eq_false_iff_not.mpr hlne) ht
    · intro l hl hlne ht
      exact h2 l hl (decide_eq_false_iff_not.mpr hlne) ht

/-- Witness for C8 at a concrete input with a name candidate and an ID
candidate. -/
theorem C8_witness :
    (∃ pre suf,
      meaningfulLinesOf ("John Smith\nXY12345678".toList) =
        pre ++ (bestNameOf ("John Smith\nXY12345678".toList)).1 :: suf ∧
      (∀ l ∈ pre, mkRat 7 10 < calculateNameScore l →
        calculateNameScore l <
          (bestNameOf ("John Smith\nXY12345678".toList)).2) ∧
      (∀ l ∈ meaningfulLinesOf ("John Smith\nXY12345678".toList),
        mkRat 7 10 < calculateNameScore l →
        calculateNameScore l ≤
          (bestNameOf ("John Smith\nXY12345678".toList)).2) ∧
      (bestNameOf ("John Smith\nXY12345678".toList)).2 =
        calculateNameScore
          (bestNameOf ("John Smith\nXY12345678".toList)).1) ∧
    (∃ pre suf,
      meaningfulLinesOf ("John Smith\nXY12345678".toList) =
        pre ++ (bestIdOf ("John Smith\nXY12345678".toList)).1 :: suf ∧
      (∀ l ∈ pre, l ≠ (bestNameOf ("John Smith\nXY12345678".toList)).1 →
        mkRat 6 10 < calculateIdScore l →
        calculateIdScore l <
          (bestIdOf ("John Smith\nXY12345678".toList)).2) ∧
      (∀ l ∈ meaningfulLinesOf ("John Smith\nXY12345678".toList),
        l ≠ (bestNameOf ("John Smith\nXY12345678".toList)).1 →
        mkRat 6 10 < calculateIdScore l →
        calculateIdScore l ≤
          (bestIdOf ("John Smith\nXY12345678".toList)).2) ∧
      (bestIdOf ("John Smith\nXY12345678".toList)).2 =
        calculateIdScore
          (bestIdOf ("John Smith\nXY12345678".toList)).1) :=
  ⟨(C8_theorem ("John Smith\nXY12345678".toList)).1 (by decide),
   (C8_theorem ("John Smith\nXY12345678".toList)).2 (by decide)⟩

/-- Counterexample for C8 as stated: `"John Smith"` and `"Jane Blake"` tie
at the maximal name score 1 (above the 0.7 threshold), and swapping the
two lines changes which of them `extractIDCardText` selects as the name. -/
theorem C8_cex :
    calculateNameScore ("John Smith".toList) =
      calculateNameScore ("Jane Blake".toList) ∧
    mkRat 7 10 < calculateNameScore ("John Smith".toList) ∧
    (extractIDCardText ("John Smith\nJane Blake".toList)).name =
      some ("John Smith".toList) ∧
    (extractIDCardText ("Jane Blake\nJohn Smith".toList)).name =
      some ("Jane Blake".toList) := by
  decide

end VMOcr
